import Mathlib

/-
A shallow embedding of `lib/adapter.js` from the `sails-github` repository,
together with theorems about its link-header parser (`parseLinks`), its
paginating fetcher (`getRequest`) and its route resolver (`route`).

JavaScript strings are modelled as `List Char`; the `request` HTTP library and
`JSON.parse` are platform primitives and are modelled as oracles: a server is a
function from the request URL to a response record whose `body` field carries
the outcome of `JSON.parse` directly.  Uncaught JavaScript exceptions (a
`TypeError` from indexing a `null` regex-match result, a `ReferenceError` from
reading an identifier that is not in scope, calling a non-function) are
modelled by dedicated `crash` outcomes, distinct from an invocation of the
completion callback.
-/

set_option maxHeartbeats 1000000

namespace SailsGithub

/-- JavaScript strings are modelled as lists of characters. -/
abbrev Str := List Char

/-- Convert a Lean string literal into the character-list model. -/
def strL (s : String) : Str := s.toList

/-- JavaScript `String.prototype.split(sep)` for a one-character separator:
`''.split(',') = ['']`, `'a,'.split(',') = ['a','']`, etc. -/
def jsSplit (sep : Char) : Str → List Str
  | [] => [[]]
  | c :: rest =>
    if c = sep then [] :: jsSplit sep rest
    else
      match jsSplit sep rest with
      | [] => [[c]]
      | s :: ss => (c :: s) :: ss

/-- JavaScript `String.prototype.trim`: whitespace stripped from both ends. -/
def jsTrim (s : Str) : Str :=
  ((s.dropWhile Char.isWhitespace).reverse.dropWhile Char.isWhitespace).reverse

/-- The characters of `l` strictly before the last occurrence of `c`
(the caller guarantees `c ∈ l`).  This models the capture group of a greedy
`(.*)` that is followed by the literal character `c` in a regex. -/
def beforeLast (c : Char) (l : Str) : Str :=
  ((l.reverse.dropWhile (fun x => x != c)).drop 1).reverse

/-- Does `s` begin with the pattern `p`?  (Both are plain character lists.) -/
def startsWithL : Str → Str → Bool
  | [], _ => true
  | _ :: _, [] => false
  | a :: as, b :: bs => a == b && startsWithL as bs

/-- JavaScript `hay.indexOf(needle) !== -1`: does `needle` occur anywhere
inside `hay`? -/
def containsL (needle : Str) : Str → Bool
  | [] => needle.isEmpty
  | c :: rest => startsWithL needle (c :: rest) || containsL needle rest

/-- The literal part of the regex `/rel="(.*)"/`: the five characters
`r`, `e`, `l`, `=`, `"`. -/
def relTag : Str := ['r', 'e', 'l', '=', '"']

/-- Model of `/rel="(.*)"/.exec(entry)`, returning the capture group.
The JavaScript engine scans start positions left to right; at the first
position where the literal `rel="` matches and a further `"` exists, the
greedy `(.*)` captures everything up to the last `"` of the remainder.
`none` models `exec` returning `null`. -/
def relExecAux : Str → Option Str
  | [] => none
  | c :: rest =>
    if startsWithL relTag (c :: rest) then
      let t := (c :: rest).drop 5
      if '"' ∈ t then some (beforeLast '"' t) else relExecAux rest
    else relExecAux rest

/-- Model of `/^<(.*)>/.exec(entry)`, returning the capture group: the entry
must start with `<` and contain a later `>`; the greedy `(.*)` captures up to
the last `>`.  `none` models `exec` returning `null`. -/
def srcExec : Str → Option Str
  | [] => none
  | c :: rest => if c = '<' ∧ '>' ∈ rest then some (beforeLast '>' rest) else none

/-- JavaScript object assignment `result[key] = v` on an object modelled as an
association list in property-insertion order: an existing key keeps its
position and gets the new value, a new key is appended. -/
def objSet (m : List (Str × Str)) (k v : Str) : List (Str × Str) :=
  if m.any (fun p => p.1 == k) then m.map (fun p => if p.1 == k then (k, v) else p)
  else m ++ [(k, v)]

/-- JavaScript property read `m[k]`: `none` models `undefined`. -/
def objGet (m : List (Str × Str)) (k : Str) : Option Str :=
  (m.find? (fun p => p.1 == k)).map Prod.snd

/-- The loop body of `parseLinks` (adapter.js lines 31-36): for each entry,
trim it, run the two regexes — indexing a `null` match result throws a
`TypeError`, modelled by returning `none` — and assign into the result
object. -/
def parseLinksGo : List Str → List (Str × Str) → Option (List (Str × Str))
  | [], result => some result
  | e :: es, result =>
    match relExecAux (jsTrim e) with
    | none => none
    | some key =>
      match srcExec (jsTrim e) with
      | none => none
      | some source => parseLinksGo es (objSet result key source)

/-- Model of `parseLinks` (adapter.js lines 27-39): split the header on `,` and fold
the entries into a fresh object.  `none` models the function throwing. -/
def parseLinks (linksHeader : Str) : Option (List (Str × Str)) :=
  parseLinksGo (jsSplit ',' linksHeader) []

/-- A well-formed link-header entry `<u>; rel="r"` as a character list. -/
def mkEntry (u r : Str) : Str :=
  '<' :: u ++ ('>' :: ';' :: ' ' :: relTag) ++ r ++ ['"']

/-- JavaScript `Array.prototype.join(',')` (also what `'' + array` produces):
elements separated by single commas. -/
def joinComma : List Str → Str
  | [] => []
  | [s] => s
  | s :: s' :: rest => s ++ ',' :: joinComma (s' :: rest)

/-- Side conditions on one field of a well-formed entry: it must not contain
the separator `,`, the quote `"`, or the bracket `>` (otherwise the greedy
regexes capture something else). -/
def wfPiece (s : Str) : Prop := ',' ∉ s ∧ '"' ∉ s ∧ '>' ∉ s

/-- A well-formed `(url, rel)` pair for a link-header entry. -/
def wfEntry (p : Str × Str) : Prop := wfPiece p.1 ∧ wfPiece p.2

/-- The outcome of `JSON.parse(body)` on the wire body, supplied directly by
the response oracle: either the exception it throws, or the parsed array. -/
inductive ParsedBody (α : Type) where
  | parseError (e : Str)
  | arr (xs : List α)
  deriving DecidableEq, Repr

/-- One invocation of the `request` library's completion callback, as supplied
by the server oracle: `failed = some e` models a truthy transport error `err`;
`link` models `res.headers.link` (`none` = header absent); `body` is the
`JSON.parse` outcome for the body string. -/
structure Response (α : Type) where
  failed : Option Str
  status : Nat
  link : Option Str
  body : ParsedBody α
  deriving DecidableEq, Repr

/-- A 200 response carrying a parsed array body and an optional link header. -/
def okResp (b : List α) (l : Option Str) : Response α :=
  { failed := none, status := 200, link := l, body := .arr b }

/-- The error values the fetcher can hand to its completion callback. -/
inductive JsError where
  | transport (e : Str)
  | invalidResponse
  | jsonParse (e : Str)
  deriving DecidableEq, Repr

/-- Observable outcome of one `getRequest` call: the completion callback fired
with data, or with an error; or an uncaught exception escaped the response
handler (`crash`); or the recursion fuel ran out (never hit in the theorems,
which always supply enough fuel). -/
inductive Outcome (α : Type) where
  | ok (data : List α)
  | error (e : JsError)
  | crash (msg : Str)
  | outOfFuel
  deriving DecidableEq, Repr

/-- Did the outcome invoke the completion callback at all? -/
def callbackFired : Outcome α → Bool
  | .ok _ => true
  | .error _ => true
  | _ => false

/-- Uncaught `TypeError` raised by `parseLinks` when a regex `exec` returns
`null` and the code indexes it (`[1]`). -/
def nullTypeErrorMsg : Str := strL "TypeError: cannot read property 1 of null"

/-- Uncaught `ReferenceError` raised by `if (err) return cb(e)` on adapter.js
line 85: the identifier `e` is only bound inside the `catch (e)` block above,
so reading it here throws. -/
def referenceErrorMsg : Str := strL "ReferenceError: e is not defined"

/-- Model of `page = page || 1` (adapter.js line 50): `undefined` and `0` are falsy. -/
def pageOr1 : Option Nat → Nat
  | none => 1
  | some 0 => 1
  | some (n + 1) => n + 1

/-- JavaScript string coercion of the token in `'?access_token=' + token`:
the recursive call passes `null`, which coerces to the string `null`. -/
def tokenToStr : Option Str → Str
  | none => strL "null"
  | some s => s

/-- The module-level constant `endpoint` (adapter.js line 13). -/
def endpoint : Str := strL "https://api.github.com/"

/-- The needle of `method.indexOf('http')` (adapter.js line 53). -/
def httpTag : Str := ['h', 't', 't', 'p']

/-- The literal query prefixes of the constructed URL (adapter.js line 54). -/
def accessTokenQ : Str := strL "?access_token="

/-- The per-page and page query fragment of the constructed URL. -/
def perPageQ : Str := strL "&per_page=100&page="

/-- The URL computed by `getRequest` (adapter.js lines 53-54): if `method`
contains `http` anywhere it is used verbatim, otherwise the endpoint, path,
token, fixed page size 100 and page number are concatenated. -/
def buildUrl (method : Str) (token : Option Str) (page : Nat) : Str :=
  if containsL httpTag method then method
  else endpoint ++ method ++ accessTokenQ ++ tokenToStr token
       ++ perPageQ ++ (Nat.repr page).toList

/-- The key of `links.next`. -/
def nextRel : Str := ['n', 'e', 'x', 't']

/-- Model of `getRequest` (adapter.js lines 49-93).  `server` is the oracle for the
`request` library; `fuel` bounds the recursion depth (the source recurses
unboundedly; every theorem supplies enough fuel).  The branch structure
mirrors the source's response handler:
transport error → `cb(err)`; non-200 → `cb(new Error('Invalid Response'))`;
JSON parse failure → `cb(e)` with the caught exception; a truthy link header
is parsed (an exception from `parseLinks` is uncaught → `crash`); a truthy
`links.next` triggers `getRequest(links.next, null, ..., page + 1)`, whose
error branch executes `return cb(e)` with `e` out of scope → `crash`;
otherwise `cb(null, data)` or `cb(null, data.concat(next))`. -/
def getRequest (server : Str → Response α) :
    Nat → Str → Option Str → Option Nat → Outcome α
  | 0, _, _, _ => .outOfFuel
  | fuel + 1, method, token, page? =>
    let page := pageOr1 page?
    let r := server (buildUrl method token page)
    match r.failed with
    | some e => .error (.transport e)
    | none =>
      if r.status ≠ 200 then .error .invalidResponse
      else
        match r.body with
        | .parseError e => .error (.jsonParse e)
        | .arr data =>
          match r.link with
          | none => .ok data
          | some h =>
            if h.isEmpty then .ok data
            else
              match parseLinks h with
              | none => .crash nullTypeErrorMsg
              | some links =>
                match objGet links nextRel with
                | none => .ok data
                | some nextUrl =>
                  if nextUrl.isEmpty then .ok data
                  else
                    match getRequest server fuel nextUrl none (some (page + 1)) with
                    | .ok next => .ok (data ++ next)
                    | .error _ => .crash referenceErrorMsg
                    | .crash m => .crash m
                    | .outOfFuel => .outOfFuel

/-- JavaScript values as far as `route` inspects them: `undefined`, strings,
and functions (the completion callback). -/
inductive JsVal where
  | undef
  | vstr (s : Str)
  | vfun
  deriving DecidableEq, Repr

/-- JavaScript truthiness of the modelled values (`''` is falsy). -/
def truthy : JsVal → Bool
  | .undef => false
  | .vstr s => !s.isEmpty
  | .vfun => true

/-- JavaScript string coercion of a modelled value (used when a substituted
argument is concatenated into the path). -/
def jsToStr : JsVal → Str
  | .undef => strL "undefined"
  | .vstr s => s
  | .vfun => strL "function"

/-- Model of `args.shift()`: first element (or `undefined`) and the remaining array. -/
def shiftA : List JsVal → JsVal × List JsVal
  | [] => (.undef, [])
  | a :: as => (a, as)

/-- Model of `args.pop()`: last element (or `undefined`) and the remaining array. -/
def popA : List JsVal → JsVal × List JsVal
  | [] => (.undef, [])
  | [a] => (a, [])
  | a :: b :: rest =>
    let (v, r) := popA (b :: rest)
    (v, a :: r)

/-- Observable outcome of one invocation of a routed operation:
`request m tok cb page?` models `return getRequest(m, accessToken, cb)` (the
`page` argument is omitted, hence `none`); `fail msg` models invoking the
callback with `new Error(msg)`; `dropped` models `return cb && cb(...)`
evaluating to a falsy `cb` (nothing happens); `crash` models invoking a
truthy non-function as if it were the callback (a `TypeError`). -/
inductive RouteOutcome where
  | request (method : Str) (token : JsVal) (cb : JsVal) (page? : Option Nat)
  | fail (msg : Str)
  | dropped
  | crash (msg : Str)
  deriving DecidableEq, Repr

/-- Uncaught `TypeError` from `cb && cb(new Error(...))` when the popped `cb`
slot holds a truthy value that is not a function. -/
def notFunTypeErrorMsg : Str := strL "TypeError: cb is not a function"

/-- The invalid-invocation error message (adapter.js line 114). -/
def badCallMsg : Str := strL "either model, callback, or accessToken was not specified"

/-- The no-matching-template error message (adapter.js lines 133-134); the
JavaScript `+ paths` coerces the array by joining with commas. -/
def incorrectMsg (paths : List Str) : Str :=
  strL "incorrect number of parameters specified, must follow one of the following: "
    ++ joinComma paths

/-- Model of `path.match(/:/g)`: the number of `:` characters in the template. -/
def colonCount (p : Str) : Nat := p.count ':'

/-- The `paths[i].split('/').map(...)` substitution (adapter.js lines
124-129): walking the parts in order, a part containing `:` consumes the next
positional argument via `args.shift()` (which yields `undefined` when the
arguments are exhausted); the pair returns the rebuilt parts and the
remaining arguments. -/
def substMap : List Str → List JsVal → List Str × List JsVal
  | [], args => ([], args)
  | part :: parts, args =>
    if ':' ∈ part then
      let (v, args') := shiftA args
      let (rest, args'') := substMap parts args'
      (jsToStr v :: rest, args'')
    else
      let (rest, args') := substMap parts args
      (part :: rest, args')

/-- The template-matching loop of `route` (adapter.js lines 117-131):
`allPaths` is kept for the final error message. -/
def routeLoop (allPaths : List Str) (accessToken cb : JsVal) :
    List Str → List JsVal → RouteOutcome
  | [], _ => .fail (incorrectMsg allPaths)
  | p :: ps, args =>
    if colonCount p = args.length then
      .request (List.intercalate ['/'] (substMap (jsSplit '/' p) args).1)
        accessToken cb none
    else routeLoop allPaths accessToken cb ps args

/-- Model of `route(paths)` applied to an argument list (adapter.js lines 106-136):
shift the model token, pop the callback, pop the access token, check the
preconditions (`typeof model === 'undefined' || !cb || !accessToken`), then
run the template-matching loop. -/
def route (paths : List Str) (arguments : List JsVal) : RouteOutcome :=
  let (model, a1) := shiftA arguments
  let (cb, a2) := popA a1
  let (accessToken, args) := popA a2
  if model = JsVal.undef ∨ truthy cb = false ∨ truthy accessToken = false then
    match cb with
    | .undef => .dropped
    | .vstr s => if s.isEmpty then .dropped else .crash notFunTypeErrorMsg
    | .vfun => .fail badCallMsg
  else routeLoop paths accessToken cb paths args

/-- The Operation Descriptor of `getUserRepos` (adapter.js line 170). -/
def userReposTemplates : List Str := [strL "user/repos", strL "users/:user/repos"]

/-- Well-formedness of one entry piece is decidable. -/
instance (s : Str) : Decidable (wfPiece s) := by unfold wfPiece; infer_instance

/-- Well-formedness of an entry is decidable. -/
instance (p : Str × Str) : Decidable (wfEntry p) := by unfold wfEntry; infer_instance

/-- A next-page URL usable in a link-header chain: it starts with `http`
(so the recursive call reuses it verbatim) and contains none of the
characters that would derail the header regexes. -/
def goodNext (u : Str) : Prop :=
  startsWithL httpTag u = true ∧ ',' ∉ u ∧ '"' ∉ u

/-- Whether a URL is a usable next-page URL is decidable. -/
instance (u : Str) : Decidable (goodNext u) := by unfold goodNext; infer_instance

/-- A server serves a page chain from URL `u`: the response at `u` is a 200
carrying body `b`; with remaining pages it advertises the next page's URL in
a well-formed `rel="next"` link header, and the chain continues there; the
final page carries no link header. -/
def serves (server : Str → Response α) : Str → List α → List (Str × List α) → Prop
  | u, b, [] => server u = okResp b none
  | u, b, (u', b') :: rest =>
    server u = okResp b (some (mkEntry u' nextRel)) ∧ goodNext u' ∧
      serves server u' b' rest

/-- A concrete page chain is decidable (used only to discharge witnesses). -/
instance servesDecidable [DecidableEq α] (server : Str → Response α) :
    ∀ (u : Str) (b : List α) (pages : List (Str × List α)),
      Decidable (serves server u b pages)
  | u, b, [] => decidable_of_iff (server u = okResp b none) (by rw [serves])
  | u, b, (u', b') :: rest =>
    have : Decidable (serves server u' b' rest) :=
      servesDecidable server u' b' rest
    decidable_of_iff
      (server u = okResp b (some (mkEntry u' nextRel)) ∧ goodNext u' ∧
        serves server u' b' rest) (by rw [serves])

/-- Spec-side substitution, modelled from the spec's words (SS4.3): walk the
template segments in order; each placeholder segment consumes the next unused
positional argument; literal segments pass through unchanged.  It is compared
against the embedded `substMap` in the route-resolution theorem. -/
def specFill : List Str → List Str → List Str
  | [], _ => []
  | part :: parts, args =>
    if ':' ∈ part then args.headD (strL "undefined") :: specFill parts (args.drop 1)
    else part :: specFill parts args

/-- Response of the concrete servers below at any URL that the scenario never
requests (requesting it would surface as a transport error). -/
def unreachedResp : Response Nat :=
  { failed := some (strL "unreachable"), status := 0, link := none,
    body := .parseError [] }

/-- First page URL of the failing-second-page scenario. -/
def c1page1 : Str := strL "http://h/1"

/-- Second page URL of the failing-second-page scenario. -/
def c1page2 : Str := strL "http://h/2"

/-- Server where page 1 succeeds and advertises page 2, and page 2 replies
with HTTP status 500. -/
def c1Server : Str → Response Nat := fun u =>
  if u = c1page1 then okResp [1, 2] (some (mkEntry c1page2 nextRel))
  else if u = c1page2 then
    { failed := none, status := 500, link := none, body := .arr [] }
  else unreachedResp

/-- The URL the fetcher constructs for the relative path `user/repos` with
token `t` at page 1. -/
def c2page1 : Str := strL "https://api.github.com/user/repos?access_token=t&per_page=100&page=1"

/-- Second page URL of the three-page success scenario. -/
def c2page2 : Str := strL "http://h/p2"

/-- Third page URL of the three-page success scenario. -/
def c2page3 : Str := strL "http://h/p3"

/-- Server with a three-page chain: pages 1 and 2 advertise a next link,
page 3 does not. -/
def c2Server : Str → Response Nat := fun u =>
  if u = c2page1 then okResp [1, 2] (some (mkEntry c2page2 nextRel))
  else if u = c2page2 then okResp [3] (some (mkEntry c2page3 nextRel))
  else if u = c2page3 then okResp [4] none
  else unreachedResp

/-- A malformed link-header value: no angle brackets and no quoted rel. -/
def c3Header : Str := strL "http://h/2; rel=next"

/-- Server whose single page carries the malformed link header. -/
def c3Server : Str → Response Nat := fun u =>
  if u = strL "http://h/1" then
    { failed := none, status := 200, link := some c3Header, body := .arr [7] }
  else unreachedResp

/-- Server whose single page (the URL built for the relative path `user`)
carries no link header at all. -/
def c7Server : Str → Response Nat := fun u =>
  if u = strL "https://api.github.com/user?access_token=t&per_page=100&page=1" then
    okResp [5] none
  else unreachedResp

/-- A relative operation path that is not a fully-qualified URL but contains
the substring `http` inside a substituted path segment. -/
def httpishPath : Str := strL "users/httpbob/repos"

/-- Characterisation of `startsWithL` as an append decomposition. -/
lemma startsWithL_iff (p : Str) : ∀ s : Str, startsWithL p s = true ↔ ∃ t, s = p ++ t := by
  induction p with
  | nil => intro s; simp [startsWithL]
  | cons a as ih =>
    intro s
    cases s with
    | nil => simp [startsWithL]
    | cons b bs =>
      simp only [startsWithL, Bool.and_eq_true, beq_iff_eq, ih, List.cons_append]
      constructor
      · rintro ⟨rfl, t, rfl⟩; exact ⟨t, rfl⟩
      · rintro ⟨t, h⟩
        injection h with h1 h2
        exact ⟨h1.symm, t, h2⟩

/-- A string that starts with the needle also contains it. -/
lemma containsL_of_startsWithL (n s : Str) (h : startsWithL n s = true) :
    containsL n s = true := by
  cases s with
  | nil =>
    cases n with
    | nil => rfl
    | cons a as => simp [startsWithL] at h
  | cons c rest => simp [containsL, h]

/-- A string that starts with `http` is not empty. -/
lemma isEmpty_eq_false_of_http (u : Str) (h : startsWithL httpTag u = true) :
    u.isEmpty = false := by
  cases u with
  | nil => simp [httpTag, startsWithL] at h
  | cons _ _ => rfl

/-- Splitting a string that does not contain the separator is the identity. -/
lemma jsSplit_of_not_mem (sep : Char) (s : Str) (h : sep ∉ s) :
    jsSplit sep s = [s] := by
  induction s with
  | nil => rfl
  | cons c rest ih =>
    have hc : ¬ c = sep := fun e => h (by simp [e])
    rw [jsSplit, if_neg hc, ih (fun hm => h (List.mem_cons_of_mem _ hm))]

/-- Splitting peels off a separator-free chunk before the first separator. -/
lemma jsSplit_append (sep : Char) (x t : Str) (hx : sep ∉ x) :
    jsSplit sep (x ++ sep :: t) = x :: jsSplit sep t := by
  induction x with
  | nil => simp [jsSplit]
  | cons c x' ih =>
    have hc : ¬ c = sep := fun e => hx (by simp [e])
    rw [List.cons_append, jsSplit, if_neg hc,
      ih (fun hm => hx (List.mem_cons_of_mem _ hm))]

/-- Splitting on `,` inverts `joinComma` when no element contains a comma. -/
lemma jsSplit_joinComma (l : List Str) (h : ∀ s ∈ l, ',' ∉ s) (hne : l ≠ []) :
    jsSplit ',' (joinComma l) = l := by
  induction l with
  | nil => exact absurd rfl hne
  | cons x rest ih =>
    cases rest with
    | nil => exact jsSplit_of_not_mem ',' x (h x (by simp))
    | cons y rest' =>
      rw [joinComma, jsSplit_append ',' x _ (h x (by simp)),
        ih (fun s hs => h s (List.mem_cons_of_mem _ hs)) (by simp)]

/-- Every element of a comma-joined list occurs inside the join. -/
lemma joinComma_decomp (p : Str) (l : List Str) (h : p ∈ l) :
    ∃ s t, joinComma l = s ++ p ++ t := by
  induction l with
  | nil => cases h
  | cons x rest ih =>
    rcases List.mem_cons.mp h with rfl | hmem
    · cases rest with
      | nil => exact ⟨[], [], by simp [joinComma]⟩
      | cons y rest' => exact ⟨[], ',' :: joinComma (y :: rest'), by simp [joinComma]⟩
    · cases rest with
      | nil => cases hmem
      | cons y rest' =>
        obtain ⟨s, t, hst⟩ := ih hmem
        exact ⟨x ++ ',' :: s, t, by simp [joinComma, hst, List.append_assoc]⟩

/-- Trimming is the identity on a string with non-whitespace ends. -/
lemma jsTrim_of_ends (a b : Char) (m : Str)
    (ha : a.isWhitespace = false) (hb : b.isWhitespace = false) :
    jsTrim (a :: (m ++ [b])) = a :: (m ++ [b]) := by
  unfold jsTrim
  rw [List.dropWhile_cons, ha]
  simp only [Bool.false_eq_true, if_false, List.reverse_cons, List.reverse_append,
    List.reverse_cons, List.reverse_nil, List.nil_append, List.cons_append,
    List.singleton_append]
  rw [List.dropWhile_cons, hb]
  simp

/-- Trimming a well-formed entry is the identity. -/
lemma jsTrim_mkEntry (u r : Str) : jsTrim (mkEntry u r) = mkEntry u r := by
  have h : mkEntry u r
      = '<' :: ((u ++ ('>' :: ';' :: ' ' :: relTag) ++ r) ++ ['"']) := by
    simp [mkEntry]
  rw [h, jsTrim_of_ends '<' '"' _ (by decide) (by decide)]

/-- Dropping while unequal to `c` skips over a whole `c`-free chunk. -/
lemma dropWhile_ne_of_not_mem (c : Char) (l t : Str) (h : c ∉ l) :
    (l ++ t).dropWhile (fun x => x != c) = t.dropWhile (fun x => x != c) := by
  induction l with
  | nil => rfl
  | cons a l' ih =>
    have ha : (a != c) = true := by
      simp only [bne_iff_ne, ne_eq]
      exact fun e => h (by simp [e])
    rw [List.cons_append, List.dropWhile_cons, ha]
    simp only [if_true]
    exact ih (fun hm => h (List.mem_cons_of_mem _ hm))

/-- The greedy capture before the last `c` when the tail after it is
`c`-free. -/
lemma beforeLast_append (c : Char) (l₁ l₂ : Str) (h : c ∉ l₂) :
    beforeLast c (l₁ ++ c :: l₂) = l₁ := by
  unfold beforeLast
  have hrev : (l₁ ++ c :: l₂).reverse = l₂.reverse ++ c :: l₁.reverse := by
    simp
  rw [hrev, dropWhile_ne_of_not_mem c _ _ (by simpa using h),
    List.dropWhile_cons]
  simp

/-- If `relTag` matches at the front, a quote occurs among the first five
characters (it is the fifth character of `relTag`). -/
lemma quote_mem_take_of_startsWith (s : Str) (h : startsWithL relTag s = true) :
    '"' ∈ s.take 5 := by
  obtain ⟨t, rfl⟩ := (startsWithL_iff relTag s).mp h
  simp [relTag]

/-- The first `k ≤ 4` characters of `relTag ++ X` contain no quote. -/
lemma take_relTag_no_quote (X : Str) (k : Nat) (hk : k ≤ 4) :
    '"' ∉ (relTag ++ X).take k := by
  interval_cases k <;> simp [relTag]

/-- The first `k ≤ 4` characters of `pre ++ relTag ++ X` contain no quote
when `pre` itself contains none. -/
lemma no_quote_take (X : Str) (pre : Str) (hpre : '"' ∉ pre) :
    ∀ k ≤ 4, '"' ∉ (pre ++ relTag ++ X).take k := by
  induction pre with
  | nil => intro k hk; simpa using take_relTag_no_quote X k hk
  | cons b pre' ih =>
    intro k hk
    cases k with
    | zero => simp
    | succ j =>
      have h2 : '"' ∉ pre' := fun hm => hpre (List.mem_cons_of_mem _ hm)
      have heq : (((b :: pre') ++ relTag ++ X).take (j + 1))
          = b :: ((pre' ++ relTag ++ X).take j) := by
        simp
      rw [heq]
      intro hmem
      rcases List.mem_cons.mp hmem with h1 | h1
      · exact hpre (by rw [h1]; exact List.mem_cons_self _ _)
      · exact ih h2 j (by omega) h1

/-- The literal `rel="` cannot match while the scan is still inside a
quote-free region with at least one character left before the tag. -/
lemma relTag_not_starts (a : Char) (pre X : Str) (h : '"' ∉ a :: pre) :
    startsWithL relTag ((a :: pre) ++ relTag ++ X) = false := by
  cases hb : startsWithL relTag ((a :: pre) ++ relTag ++ X) with
  | false => rfl
  | true =>
    have hq := quote_mem_take_of_startsWith _ hb
    have heq : (((a :: pre) ++ relTag ++ X).take 5)
        = a :: ((pre ++ relTag ++ X).take 4) := by simp
    rw [heq] at hq
    rcases List.mem_cons.mp hq with h1 | h1
    · exact absurd (by rw [h1]; exact List.mem_cons_self _ _) h
    · exact absurd h1
        (no_quote_take X pre (fun hm => h (List.mem_cons_of_mem _ hm)) 4 le_rfl)

/-- The scan of `relExecAux` passes over a quote-free region untouched. -/
lemma relExecAux_shift (pre X : Str) (hpre : '"' ∉ pre) :
    relExecAux (pre ++ relTag ++ X) = relExecAux (relTag ++ X) := by
  induction pre with
  | nil => rfl
  | cons a pre' ih =>
    have hfalse := relTag_not_starts a pre' X hpre
    have h2 : '"' ∉ pre' := fun hm => hpre (List.mem_cons_of_mem _ hm)
    simp only [List.cons_append]
    rw [relExecAux]
    simp only [List.cons_append] at hfalse
    simp only [hfalse, Bool.false_eq_true, if_false]
    exact ih h2

/-- At the tag itself, the scanner captures up to the final quote. -/
lemma relExecAux_base (mid : Str) :
    relExecAux (relTag ++ (mid ++ ['"'])) = some mid := by
  have hs : startsWithL relTag (relTag ++ (mid ++ ['"'])) = true :=
    (startsWithL_iff relTag _).mpr ⟨mid ++ ['"'], rfl⟩
  have hform : relTag ++ (mid ++ ['"'])
      = 'r' :: ('e' :: 'l' :: '=' :: '"' :: (mid ++ ['"'])) := rfl
  rw [hform, relExecAux]
  rw [hform] at hs
  simp only [hs, if_true]
  have hdrop : ('r' :: ('e' :: 'l' :: '=' :: '"' :: (mid ++ ['"']))).drop 5
      = mid ++ ['"'] := rfl
  rw [hdrop]
  rw [if_pos (by simp)]
  have : beforeLast '"' (mid ++ '"' :: []) = mid :=
    beforeLast_append '"' mid [] (by simp)
  simpa using this

/-- The rel-regex on a well-formed entry captures exactly the rel name. -/
lemma relExecAux_mkEntry (u r : Str) (hu : '"' ∉ u) :
    relExecAux (mkEntry u r) = some r := by
  have hshape : mkEntry u r
      = ('<' :: (u ++ ['>', ';', ' '])) ++ relTag ++ (r ++ ['"']) := by
    simp [mkEntry, relTag]
  have hpre : '"' ∉ '<' :: (u ++ ['>', ';', ' ']) := by
    simp only [List.mem_cons, List.mem_append]
    rintro (h | h | h)
    · cases h
    · exact hu h
    · simp at h
  rw [hshape, relExecAux_shift _ _ hpre, relExecAux_base]

/-- The url-regex on a well-formed entry captures exactly the URL (the
greedy `(.*)` runs to the last `>`, which is the closing bracket as long as
the rel name has no `>`). -/
lemma srcExec_mkEntry (u r : Str) (hr : '>' ∉ r) :
    srcExec (mkEntry u r) = some u := by
  have hshape : mkEntry u r
      = '<' :: (u ++ '>' :: (';' :: ' ' :: (relTag ++ (r ++ ['"'])))) := by
    simp [mkEntry, relTag]
  have htail : '>' ∉ ';' :: ' ' :: (relTag ++ (r ++ ['"'])) := by
    intro h
    rcases List.mem_cons.mp h with h | h
    · exact absurd h (by decide)
    rcases List.mem_cons.mp h with h | h
    · exact absurd h (by decide)
    rcases List.mem_append.mp h with h | h
    · revert h; decide
    rcases List.mem_append.mp h with h | h
    · exact hr h
    · revert h; decide
  rw [hshape, srcExec, if_pos ⟨rfl, by simp⟩, beforeLast_append '>' u _ htail]

/-- A well-formed entry contains no comma. -/
lemma comma_not_mem_mkEntry (u r : Str) (hu : ',' ∉ u) (hr : ',' ∉ r) :
    ',' ∉ mkEntry u r := by
  intro h
  simp only [mkEntry] at h
  rcases List.mem_cons.mp h with h | h
  · exact absurd h (by decide)
  rcases List.mem_append.mp h with h | h
  · rcases List.mem_append.mp h with h | h
    · rcases List.mem_append.mp h with h | h
      · exact hu h
      · revert h; decide
    · exact hr h
  · revert h; decide

/-- Assignment of a fresh key appends it at the end. -/
lemma objSet_of_not_mem (m : List (Str × Str)) (k v : Str)
    (h : ∀ p ∈ m, p.1 ≠ k) : objSet m k v = m ++ [(k, v)] := by
  unfold objSet
  rw [if_neg]
  simp only [List.any_eq_true, beq_iff_eq, not_exists]
  push_neg
  exact h

/-- Folding well-formed entries with pairwise-distinct rel names through the
`parseLinks` loop appends one `(rel, url)` pair per entry, in entry order. -/
lemma parseLinksGo_mkEntries (entries : List (Str × Str)) :
    ∀ acc : List (Str × Str),
    (∀ p ∈ entries, wfEntry p) →
    (entries.map Prod.snd).Nodup →
    (∀ p ∈ entries, ∀ q ∈ acc, q.1 ≠ p.2) →
    parseLinksGo (entries.map (fun p => mkEntry p.1 p.2)) acc
      = some (acc ++ entries.map (fun p => (p.2, p.1))) := by
  induction entries with
  | nil => intro acc _ _ _; simp [parseLinksGo]
  | cons e rest ih =>
    intro acc hwf hnd hdisj
    obtain ⟨u, r⟩ := e
    obtain ⟨⟨huc, huq, hug⟩, ⟨hrc, hrq, hrg⟩⟩ := hwf (u, r) (by simp)
    rw [List.map_cons, parseLinksGo, jsTrim_mkEntry,
      relExecAux_mkEntry u r huq, srcExec_mkEntry u r hrg]
    show parseLinksGo (rest.map (fun p => mkEntry p.1 p.2)) (objSet acc r u)
        = some (acc ++ ((u, r) :: rest).map (fun p => (p.2, p.1)))
    rw [objSet_of_not_mem acc r u (fun q hq => hdisj (u, r) (by simp) q hq)]
    have hnd' : (rest.map Prod.snd).Nodup := (List.nodup_cons.mp hnd).2
    have hnotmem : r ∉ rest.map Prod.snd := (List.nodup_cons.mp hnd).1
    have hdisj' : ∀ p ∈ rest, ∀ q ∈ acc ++ [(r, u)], q.1 ≠ p.2 := by
      intro p hp q hq
      rcases List.mem_append.mp hq with hq | hq
      · exact hdisj p (List.mem_cons_of_mem _ hp) q hq
      · have : q = (r, u) := by simpa using hq
        subst this
        intro hcontra
        have hcontra' : r = p.2 := hcontra
        exact hnotmem (hcontra' ▸ List.mem_map_of_mem Prod.snd hp)
    rw [ih (acc ++ [(r, u)]) (fun p hp => hwf p (List.mem_cons_of_mem _ hp))
      hnd' hdisj']
    simp

/-- Parsing the single well-formed entry `<u>; rel="next"` yields exactly the
`next` binding. -/
lemma parseLinks_mkEntry_next (u : Str) (hc : ',' ∉ u) (hq : '"' ∉ u) :
    parseLinks (mkEntry u nextRel) = some [(nextRel, u)] := by
  unfold parseLinks
  rw [jsSplit_of_not_mem ',' _ (comma_not_mem_mkEntry u nextRel hc (by decide)),
    parseLinksGo, jsTrim_mkEntry, relExecAux_mkEntry u nextRel hq,
    srcExec_mkEntry u nextRel (by decide)]
  simp [parseLinksGo, objSet]

/-- A URL that starts with `http` is taken verbatim by the URL builder. -/
lemma buildUrl_http (u : Str) (token : Option Str) (page : Nat)
    (h : startsWithL httpTag u = true) : buildUrl u token page = u := by
  unfold buildUrl
  rw [if_pos (containsL_of_startsWithL _ _ h)]

/-- A rendered entry is never the empty string. -/
lemma mkEntry_isEmpty (u r : Str) : (mkEntry u r).isEmpty = false := rfl

/-- Looking up `next` in the singleton parse result. -/
lemma objGet_next (u : Str) : objGet [(nextRel, u)] nextRel = some u := by
  simp [objGet, List.find?]

/-- Popping an array returns its last element and the rest. -/
lemma popA_concat (l : List JsVal) (a : JsVal) : popA (l ++ [a]) = (a, l) := by
  induction l with
  | nil => rfl
  | cons b t ih =>
    cases t with
    | nil => rfl
    | cons c t' =>
      rw [List.cons_append] at ih ⊢
      simp [popA, ih]

/-- The embedded left-to-right substitution agrees with the spec-side
description when the arguments are strings. -/
lemma substMap_spec (parts : List Str) (args : List Str) :
    (substMap parts (args.map JsVal.vstr)).1 = specFill parts args := by
  induction parts generalizing args with
  | nil => rfl
  | cons part parts ih =>
    by_cases hc : ':' ∈ part
    · cases args with
      | nil =>
        have h0 := ih []
        simp only [List.map_nil] at h0
        simp [substMap, specFill, hc, shiftA, jsToStr, h0]
      | cons a as => simp [substMap, specFill, hc, shiftA, ih, jsToStr]
    · simp [substMap, specFill, hc, ih]

/-- The matching loop skips every template whose placeholder count differs
from the argument count. -/
lemma routeLoop_skip (allPaths : List Str) (tok cb : JsVal)
    (pre rest : List Str) (args : List JsVal)
    (h : ∀ q ∈ pre, colonCount q ≠ args.length) :
    routeLoop allPaths tok cb (pre ++ rest) args
      = routeLoop allPaths tok cb rest args := by
  induction pre with
  | nil => rfl
  | cons q pre' ih =>
    rw [List.cons_append, routeLoop, if_neg (h q (by simp))]
    exact ih (fun q' hq' => h q' (List.mem_cons_of_mem _ hq'))

/-- The matching loop fires on a template whose placeholder count equals the
argument count. -/
lemma routeLoop_hit (allPaths : List Str) (tok cb : JsVal)
    (p : Str) (ps : List Str) (args : List JsVal)
    (h : colonCount p = args.length) :
    routeLoop allPaths tok cb (p :: ps) args
      = .request (List.intercalate ['/'] (substMap (jsSplit '/' p) args).1)
          tok cb none := by
  rw [routeLoop, if_pos h]

/-- With no matching template at all, the loop reaches the error return. -/
lemma routeLoop_fail (allPaths : List Str) (tok cb : JsVal)
    (l : List Str) (args : List JsVal)
    (h : ∀ q ∈ l, colonCount q ≠ args.length) :
    routeLoop allPaths tok cb l args = .fail (incorrectMsg allPaths) := by
  induction l with
  | nil => rfl
  | cons q l' ih =>
    rw [routeLoop, if_neg (h q (by simp))]
    exact ih (fun q' hq' => h q' (List.mem_cons_of_mem _ hq'))

/-- Unfolding of `route` on a well-shaped invocation
`(model, ...positional, token, cb)`: the three precondition checks pass and
the matching loop runs on the positional arguments. -/
lemma route_shape (paths : List Str) (model : JsVal) (positional : List Str)
    (token : Str) (hm : model ≠ JsVal.undef) (ht : token ≠ []) :
    route paths
        (model :: (positional.map JsVal.vstr ++ [JsVal.vstr token, JsVal.vfun]))
      = routeLoop paths (JsVal.vstr token) JsVal.vfun paths
          (positional.map JsVal.vstr) := by
  have h1 : popA (positional.map JsVal.vstr ++ [JsVal.vstr token, JsVal.vfun])
      = (JsVal.vfun, positional.map JsVal.vstr ++ [JsVal.vstr token]) := by
    have : positional.map JsVal.vstr ++ [JsVal.vstr token, JsVal.vfun]
        = (positional.map JsVal.vstr ++ [JsVal.vstr token]) ++ [JsVal.vfun] := by
      simp
    rw [this, popA_concat]
  have h2 : popA (positional.map JsVal.vstr ++ [JsVal.vstr token])
      = (JsVal.vstr token, positional.map JsVal.vstr) := popA_concat _ _
  have hte : token.isEmpty = false := by
    cases token with
    | nil => exact absurd rfl ht
    | cons _ _ => rfl
  unfold route
  simp only [shiftA, h1, h2]
  rw [if_neg]
  simp only [truthy, hte, Bool.not_false, not_or]
  refine ⟨hm, by simp, by simp⟩

/-- C2: for every multi-page response sequence in which each page before the
last advertises a `next` link and the last does not, the accumulated result
delivered to the completion callback equals the concatenation of the parsed
page bodies in ascending page order (the embedded recursive call performs
each recursive fetch at the server-supplied next URL, with `null` credential
and `page + 1`). -/
theorem getRequest_paginates {α : Type} (server : Str → Response α) (fuel : Nat)
    (method : Str) (token : Option Str) (page? : Option Nat)
    (b : List α) (pages : List (Str × List α))
    (hserves : serves server (buildUrl method token (pageOr1 page?)) b pages)
    (hfuel : pages.length < fuel) :
    getRequest server fuel method token page?
      = .ok (b ++ (pages.map Prod.snd).flatten) := by
  revert hserves hfuel
  induction pages generalizing method token page? fuel b with
  | nil =>
    intro hserves hfuel
    cases fuel with
    | zero => exact absurd hfuel (by omega)
    | succ f =>
      rw [serves] at hserves
      simp only [getRequest]
      rw [hserves]
      simp [okResp]
  | cons hd tl ih =>
    obtain ⟨u', b'⟩ := hd
    intro hserves hfuel
    rw [serves] at hserves
    obtain ⟨hresp, ⟨hhttp, hc, hq⟩, hrest⟩ := hserves
    cases fuel with
    | zero => exact absurd hfuel (by omega)
    | succ f =>
      have hrest' : serves server
          (buildUrl u' none (pageOr1 (some (pageOr1 page? + 1)))) b' tl := by
        rw [buildUrl_http u' none _ hhttp]
        exact hrest
      have hrec := ih f u' none (some (pageOr1 page? + 1)) b' hrest'
        (by simp at hfuel; omega)
      simp only [getRequest]
      rw [hresp]
      simp only [okResp]
      simp [mkEntry_isEmpty, parseLinks_mkEntry_next u' hc hq, objGet_next,
        isEmpty_eq_false_of_http u' hhttp, hrec]

/-- C3 (amended): a malformed link-header entry on a 200 page makes the parse
step fail; the resulting exception escapes the response handler uncaught — the
completion callback is never invoked, so the entry is neither silently
skipped nor surfaced through the callback, and no partial link set is used. -/
theorem malformed_link_crashes {α : Type} (server : Str → Response α)
    (fuel : Nat) (method : Str) (token : Option Str) (page? : Option Nat)
    (data : List α) (h : Str)
    (hresp : server (buildUrl method token (pageOr1 page?))
      = { failed := none, status := 200, link := some h, body := .arr data })
    (hne : h.isEmpty = false)
    (hbad : parseLinks h = none) :
    getRequest server (fuel + 1) method token page? = .crash nullTypeErrorMsg
    ∧ callbackFired (getRequest server (fuel + 1) method token page?)
        = false := by
  have hmain : getRequest server (fuel + 1) method token page?
      = .crash nullTypeErrorMsg := by
    simp only [getRequest]
    rw [hresp]
    simp [hne, hbad]
  exact ⟨hmain, by rw [hmain]; rfl⟩

/-- C7 (amended): an absent link header, or the empty-string link header, is
falsy, so the fetcher never calls the parser and completes immediately with
the current page's parsed body. -/
theorem absent_link_completes {α : Type} (server : Str → Response α)
    (fuel : Nat) (method : Str) (token : Option Str) (page? : Option Nat)
    (data : List α) (l : Option Str)
    (hresp : server (buildUrl method token (pageOr1 page?))
      = { failed := none, status := 200, link := l, body := .arr data })
    (hl : l = none ∨ l = some []) :
    getRequest server (fuel + 1) method token page? = .ok data := by
  rcases hl with rfl | rfl <;>
    · simp only [getRequest]
      rw [hresp]
      simp

/-- C2 witness: the three-page chain of `c2Server`, fetched from the relative
path `user/repos`, accumulates the three page bodies in page order. -/
theorem getRequest_paginates_witness :
    getRequest c2Server 5 (strL "user/repos") (some (strL "t")) none
      = .ok [1, 2, 3, 4] := by
  have h := getRequest_paginates c2Server 5 (strL "user/repos")
    (some (strL "t")) none [1, 2] [(c2page2, [3]), (c2page3, [4])]
    (by decide) (by decide)
  simpa using h

/-- C3 witness: the malformed header of `c3Server` makes the fetch crash
without invoking the completion callback. -/
theorem malformed_link_crashes_witness :
    getRequest c3Server 2 (strL "http://h/1") (some (strL "t")) none
      = .crash nullTypeErrorMsg
    ∧ callbackFired
        (getRequest c3Server 2 (strL "http://h/1") (some (strL "t")) none)
        = false :=
  malformed_link_crashes c3Server 1 (strL "http://h/1") (some (strL "t")) none
    [7] c3Header (by decide) (by decide) (by decide)

/-- C3 counterexample: on the malformed entry the parse step fails, but the
resulting error is not delivered through the completion callback (the run
crashes with an uncaught TypeError instead), contradicting the claim that the
failure is propagated to the caller through the callback. -/
theorem parseLinks_malformed_ce :
    parseLinks c3Header = none
    ∧ callbackFired
        (getRequest c3Server 2 (strL "http://h/1") (some (strL "t")) none)
        = false := by
  decide

/-- C7 witness: a page with no link header completes with its own body. -/
theorem absent_link_completes_witness :
    getRequest c7Server 1 (strL "user") (some (strL "t")) none = .ok [5] :=
  absent_link_completes c7Server 0 (strL "user") (some (strL "t")) none [5]
    none (by decide) (Or.inl rfl)

/-- C7 counterexample: the parser applied to the empty header value throws (a
split of `''` yields one empty entry which matches neither regex) instead of
yielding the empty Page Link Set. -/
theorem parseLinks_empty_throws_ce :
    parseLinks (strL "") = none ∧ parseLinks (strL "") ≠ some [] := by
  decide

/-- C1: evaluation of the code at a failing recursive page: page 2 of
`c1Server` replies with HTTP status 500; the recursion's error branch
executes `return cb(e)` (adapter.js line 85) with `e` unbound, so the run
crashes with a ReferenceError and the original caller's completion callback
is never invoked with the error. -/
theorem recursive_page_error_not_delivered :
    getRequest c1Server 3 c1page1 (some (strL "tok")) none
      = .crash referenceErrorMsg
    ∧ callbackFired (getRequest c1Server 3 c1page1 (some (strL "tok")) none)
        = false := by
  decide

/-- C4 (amended): a link header of `N` well-formed entries whose rel names
are pairwise distinct (and `N ≥ 1`) parses to exactly `N` keys, each entry's
rel name mapped to the bracket-enclosed URL of that entry, in entry order. -/
theorem parseLinks_wf_entries (entries : List (Str × Str))
    (hwf : ∀ p ∈ entries, wfEntry p)
    (hnd : (entries.map Prod.snd).Nodup)
    (hne : entries ≠ []) :
    parseLinks (joinComma (entries.map (fun p => mkEntry p.1 p.2)))
      = some (entries.map (fun p => (p.2, p.1)))
    ∧ (entries.map (fun p => (p.2, p.1))).length = entries.length := by
  have hcomma : ∀ s ∈ entries.map (fun p => mkEntry p.1 p.2), ',' ∉ s := by
    intro s hs
    obtain ⟨p, hp, rfl⟩ := List.mem_map.mp hs
    exact comma_not_mem_mkEntry p.1 p.2 (hwf p hp).1.1 (hwf p hp).2.1
  have hne' : entries.map (fun p => mkEntry p.1 p.2) ≠ [] := by simpa using hne
  refine ⟨?_, by simp⟩
  unfold parseLinks
  rw [jsSplit_joinComma _ hcomma hne',
    parseLinksGo_mkEntries entries [] hwf hnd (by simp)]
  simp

/-- C4 witness: two well-formed entries with distinct rel names parse to two
keys carrying their own URLs. -/
theorem parseLinks_wf_entries_witness :
    parseLinks (strL "<http://a>; rel=\"next\",<http://b>; rel=\"last\"")
      = some [(strL "next", strL "http://a"), (strL "last", strL "http://b")]
    ∧ ([(strL "next", strL "http://a"), (strL "last", strL "http://b")]
        : List (Str × Str)).length = 2 := by
  have h := parseLinks_wf_entries
    [(strL "http://a", strL "next"), (strL "http://b", strL "last")]
    (by decide) (by decide) (by decide)
  exact ⟨h.1, rfl⟩

/-- C4 counterexample: two well-formed entries sharing the rel name `next`
parse to a single key (the second URL overwrites the first), so the parsed
set does not have one key per entry and the first entry's URL is lost. -/
theorem parseLinks_dup_rel_ce :
    parseLinks (strL "<http://a>; rel=\"next\",<http://b>; rel=\"next\"")
      = some [(strL "next", strL "http://b")]
    ∧ ([(strL "next", strL "http://b")] : List (Str × Str)).length ≠ 2 := by
  decide

/-- C5: the request URL is the target verbatim when the target contains the
protocol marker `http`; otherwise it is the fixed API root followed by the
relative path with the `access_token`, `per_page=100` and `page=<n>` query
parameters, where `n` defaults to 1 when no page is given. -/
theorem buildUrl_spec (method token : Str) (page? : Option Nat) :
    (containsL httpTag method = true →
      buildUrl method (some token) (pageOr1 page?) = method)
    ∧ (containsL httpTag method = false →
      buildUrl method (some token) (pageOr1 page?)
        = endpoint ++ method ++ accessTokenQ ++ token ++ perPageQ
            ++ (Nat.repr (pageOr1 page?)).toList)
    ∧ pageOr1 none = 1 := by
  refine ⟨fun h => ?_, fun h => ?_, rfl⟩
  · unfold buildUrl
    rw [if_pos h]
  · unfold buildUrl
    rw [if_neg (by simp [h])]
    rfl

/-- C5 witness: a fully-qualified target is used verbatim; a relative path is
expanded with the API root, token, page size and default page 1. -/
theorem buildUrl_spec_witness :
    containsL httpTag (strL "http://n/2") = true
    ∧ buildUrl (strL "http://n/2") (some (strL "t")) (pageOr1 none)
        = strL "http://n/2"
    ∧ containsL httpTag (strL "user/repos") = false
    ∧ buildUrl (strL "user/repos") (some (strL "t")) (pageOr1 none)
        = endpoint ++ strL "user/repos" ++ accessTokenQ ++ strL "t" ++ perPageQ
            ++ (Nat.repr (pageOr1 none)).toList :=
  ⟨by decide, (buildUrl_spec (strL "http://n/2") (strL "t") none).1 (by decide),
    by decide,
    (buildUrl_spec (strL "user/repos") (strL "t") none).2.1 (by decide)⟩

/-- C6: with a well-shaped invocation whose positional-argument count equals
the placeholder count of some template, `route` selects the first such
template in descriptor order, substitutes the positional arguments into its
placeholder segments left-to-right with literal segments unchanged (the
spec-side `specFill`), joins the segments with `/`, and delegates the path,
credential and callback to the fetcher with the page argument omitted, which
the fetcher defaults to page 1. -/
theorem route_first_match (paths pre post : List Str) (p : Str)
    (model : JsVal) (positional : List Str) (token : Str)
    (hpaths : paths = pre ++ p :: post)
    (hpre : ∀ q ∈ pre, colonCount q ≠ positional.length)
    (hp : colonCount p = positional.length)
    (hm : model ≠ JsVal.undef) (ht : token ≠ []) :
    route paths
        (model :: (positional.map JsVal.vstr ++ [JsVal.vstr token, JsVal.vfun]))
      = .request (List.intercalate ['/'] (specFill (jsSplit '/' p) positional))
          (.vstr token) .vfun none
    ∧ pageOr1 none = 1 := by
  refine ⟨?_, rfl⟩
  rw [route_shape paths model positional token hm ht, hpaths,
    routeLoop_skip _ _ _ pre _ _ (by simpa using hpre),
    routeLoop_hit _ _ _ p post _ (by simpa using hp),
    substMap_spec]

/-- C6 witness: one positional argument selects the one-placeholder template
`users/:user/repos` and substitutes the argument into its middle segment. -/
theorem route_first_match_witness :
    route userReposTemplates
        [JsVal.vstr (strL "m"), JsVal.vstr (strL "bob"), JsVal.vstr (strL "t"),
          JsVal.vfun]
      = .request (strL "users/bob/repos") (.vstr (strL "t")) .vfun none := by
  have h := route_first_match userReposTemplates [strL "user/repos"] []
    (strL "users/:user/repos") (JsVal.vstr (strL "m")) [strL "bob"] (strL "t")
    (by decide) (by decide) (by decide) (by decide) (by decide)
  exact h.1

/-- C8: when no template's placeholder count matches the positional-argument
count, the callback is invoked with the error enumerating the available
templates (each template occurs verbatim inside the message), no substitution
is performed and no request is issued. -/
theorem route_no_match (paths : List Str) (model : JsVal)
    (positional : List Str) (token : Str)
    (hall : ∀ q ∈ paths, colonCount q ≠ positional.length)
    (hm : model ≠ JsVal.undef) (ht : token ≠ []) :
    route paths
        (model :: (positional.map JsVal.vstr ++ [JsVal.vstr token, JsVal.vfun]))
      = .fail (incorrectMsg paths)
    ∧ ∀ q ∈ paths, ∃ s t, incorrectMsg paths = s ++ q ++ t := by
  constructor
  · rw [route_shape paths model positional token hm ht,
      routeLoop_fail _ _ _ paths _ (by simpa using hall)]
  · intro q hq
    obtain ⟨s, t, hst⟩ := joinComma_decomp q paths hq
    refine ⟨strL "incorrect number of parameters specified, must follow one of the following: " ++ s, t, ?_⟩
    unfold incorrectMsg
    rw [hst]
    simp [List.append_assoc]

/-- C8 witness: two positional arguments match neither template of
`getUserRepos` (placeholder counts 0 and 1): the invocation fails with the
template-enumerating error. -/
theorem route_no_match_witness :
    route userReposTemplates
        [JsVal.vstr (strL "m"), JsVal.vstr (strL "a"), JsVal.vstr (strL "b"),
          JsVal.vstr (strL "t"), JsVal.vfun]
      = .fail (incorrectMsg userReposTemplates)
    ∧ ∀ q ∈ userReposTemplates,
        ∃ s t, incorrectMsg userReposTemplates = s ++ q ++ t := by
  have h := route_no_match userReposTemplates (JsVal.vstr (strL "m"))
    [strL "a", strL "b"] (strL "t") (by decide) (by decide) (by decide)
  exact ⟨h.1, h.2⟩

/-- C9 (amended): shape-violating invocations either invoke the callback with
the invalid-invocation error (when a callable sits in the popped callback
slot), or do nothing at all (when that slot is falsy); but an invocation that
omits the callback, leaving the truthy credential string in the callback
slot, crashes with a TypeError instead of doing nothing — in every case no
request is issued. -/
theorem route_bad_shape (paths : List Str) (model : JsVal) (token : Str)
    (ht : token ≠ []) :
    route paths [] = .dropped
    ∧ route paths [JsVal.undef, JsVal.vstr token, JsVal.vfun]
        = .fail badCallMsg
    ∧ route paths [model, JsVal.vfun] = .fail badCallMsg
    ∧ route paths [model, JsVal.vstr token, JsVal.undef] = .dropped
    ∧ route paths [model, JsVal.vstr token] = .crash notFunTypeErrorMsg := by
  have hte : token.isEmpty = false := by
    cases token with
    | nil => exact absurd rfl ht
    | cons _ _ => rfl
  refine ⟨rfl, ?_, ?_, ?_, ?_⟩
  · simp [route, shiftA, popA, truthy]
  · simp [route, shiftA, popA, truthy]
  · simp [route, shiftA, popA, truthy]
  · simp [route, shiftA, popA, truthy, hte]

/-- C9 witness: the invalid shapes at concrete values. -/
theorem route_bad_shape_witness :
    route userReposTemplates [] = .dropped
    ∧ route userReposTemplates [JsVal.undef, JsVal.vstr (strL "t"), JsVal.vfun]
        = .fail badCallMsg
    ∧ route userReposTemplates [JsVal.vstr (strL "m"), JsVal.vfun]
        = .fail badCallMsg
    ∧ route userReposTemplates
        [JsVal.vstr (strL "m"), JsVal.vstr (strL "t"), JsVal.undef] = .dropped
    ∧ route userReposTemplates [JsVal.vstr (strL "m"), JsVal.vstr (strL "t")]
        = .crash notFunTypeErrorMsg :=
  route_bad_shape userReposTemplates (JsVal.vstr (strL "m")) (strL "t")
    (by decide)

/-- C9 counterexample: the invocation `(model, token)` — a routed call with
the completion callback omitted — crashes with a TypeError (the popped
callback slot holds the truthy credential string, which is then invoked),
rather than doing nothing or invoking a callback with an error. -/
theorem route_missing_cb_ce :
    route userReposTemplates [JsVal.vstr (strL "model"), JsVal.vstr (strL "token")]
      = .crash notFunTypeErrorMsg
    ∧ route userReposTemplates [JsVal.vstr (strL "model"), JsVal.vstr (strL "token")]
        ≠ .dropped
    ∧ route userReposTemplates [JsVal.vstr (strL "model"), JsVal.vstr (strL "token")]
        ≠ .fail badCallMsg := by
  decide

/-- C10: the relative operation path `users/httpbob/repos` — produced by the
route resolver substituting the positional argument `httpbob` — is not a
fully-qualified URL (it does not start with `http`), yet because it contains
the substring `http` the fetcher uses it verbatim as the request URL instead
of prefixing the API root and appending the query parameters. -/
theorem relative_http_path_taken_verbatim :
    route userReposTemplates
        [JsVal.vstr (strL "m"), JsVal.vstr (strL "httpbob"), JsVal.vstr (strL "t"),
          JsVal.vfun]
      = .request httpishPath (.vstr (strL "t")) .vfun none
    ∧ startsWithL httpTag httpishPath = false
    ∧ containsL httpTag httpishPath = true
    ∧ buildUrl httpishPath (some (strL "t")) 1 = httpishPath := by
  decide

end SailsGithub
